import Mathlib

/-!
Verification of the review engine of the nihon-vocab-trainer repository
(source file vocab_v4.0.0.py) against its natural-language specification.

The development shallowly embeds, from the source:
  - the SM-2 scheduler sm2_update (lines 1145-1164),
  - the transliteration engine: kana_to_romaji (1320-1399),
    romaji_to_kana (1402-1525), romaji_to_kana_relaxed (1288-1316),
    and their helpers _kata_to_hira / _hira_to_kata / _has_kana / _has_kanji,
  - the answer-equivalence logic of StudyWindow.check_answer (5381-5452)
    including the local-dictionary kanji fallback,
  - the judgment operations of the review-session state machine:
    StudyWindow.submit_rating (5132-5158), check_answer, mark_fail (5454-5493),
  - the queue queries list_cards_by_unit (461-488) / list_due_cards (492-493).

Python strings are modelled as Lean String / List Char, Python ints as Int,
Python floats as Rat (the floating-point clamp / formula structure proved here
is insensitive to the choice of an ordered field), dict lookups as association
lists, the SQLite store as an explicit record of the persisted fields, and the
review-event log plus the trace of scheduler invocations as explicit lists in
the session state.
-/

namespace Vocab

/-! ## Card rows

The source accesses storage rows positionally:
row[0]=id, row[2]=unit, row[3]=term, row[4]=meaning, row[7]=interval,
row[8]=repetition, row[9]=ef, row[11]=jp_kanji, row[12]=jp_kana.  `none` in
an optional field models a SQL NULL (Python `None`). -/

structure CardRow where
  id : Int
  unit : String
  term : String
  meaning : String
  interval : Int
  repetition : Int
  ef : Rat
  jp_kanji : Option String
  jp_kana : Option String
deriving DecidableEq, Repr

/-! ## Scheduler: sm2_update (vocab_v4.0.0.py lines 1145-1164) -/

/-- Python's built-in round (banker's rounding, halves to even),
restricted to rationals, as used in `int(round(interval * ef))`. -/
def pyRound (x : Rat) : Int :=
  let f : Int := ⌊x⌋
  if x - f < 1/2 then f
  else if (1:Rat)/2 < x - f then f + 1
  else if f % 2 = 0 then f else f + 1

/-- Embeds sm2_update: reads row[7], row[8], row[9], applies the SM-2 branch
on the quality, then the easiness update with its 1.3 floor, and returns the
new (interval, repetition, easiness) triple. -/
def sm2_update (card_row : CardRow) (quality : Int) : Int × Int × Rat :=
  let interval := card_row.interval
  let repetition := card_row.repetition
  let ef := card_row.ef
  let q := quality
  let ir : Int × Int :=
    if q < 3 then (1, 0)
    else
      let repetition := repetition + 1
      if repetition = 1 then (1, repetition)
      else if repetition = 2 then (6, repetition)
      else (max 1 (pyRound ((interval : Rat) * ef)), repetition)
  let ef := ef + ((1:Rat)/10 - (5 - q) * ((2:Rat)/25 + (5 - q) * ((1:Rat)/50)))
  let ef := if ef < (13:Rat)/10 then (13:Rat)/10 else ef
  (ir.1, ir.2, ef)

/-- The easiness value produced by one sm2_update step, before clamping
(0.1 = 1/10, 0.08 = 2/25, 0.02 = 1/50 as exact rationals). -/
def sm2_raw_ef (ef : Rat) (q : Int) : Rat :=
  ef + ((1:Rat)/10 - (5 - q) * ((2:Rat)/25 + (5 - q) * ((1:Rat)/50)))

theorem sm2_update_ef_eq (row : CardRow) (q : Int) :
    (sm2_update row q).2.2 =
      if sm2_raw_ef row.ef q < (13:Rat)/10 then (13:Rat)/10
      else sm2_raw_ef row.ef q := by
  simp [sm2_update, sm2_raw_ef]

/-- C6 -- Scheduler lapse: for every input triple and every quality q < 3,
sm2_update returns interval 1, repetition 0, and
easiness max(1.3, easiness + 0.1 - (5-q)*(0.08 + (5-q)*0.02)): the easiness
update is applied in the lapse branch too. -/
theorem C6_scheduler_lapse (row : CardRow) (q : Int) (hq : q < 3) :
    sm2_update row q =
      (1, 0,
        max ((13:Rat)/10)
          (row.ef + ((1:Rat)/10 - (5 - q) * ((2:Rat)/25 + (5 - q) * ((1:Rat)/50))))) := by
  simp only [sm2_update, if_pos hq]
  rcases le_or_lt ((13:Rat)/10)
      (row.ef + ((1:Rat)/10 - (5 - q) * ((2:Rat)/25 + (5 - q) * ((1:Rat)/50)))) with h | h
  · rw [if_neg (not_lt.mpr h), max_eq_right h]
  · rw [if_pos h, max_eq_left h.le]

/-- Witness for C6: a concrete lapse, quality 1 on (interval 6, repetition 3,
easiness 2.5), yields (1, 0, 1.96). -/
theorem C6_scheduler_lapse_witness :
    sm2_update ⟨1, "", "", "", 6, 3, 5/2, none, none⟩ 1 =
      (1, 0,
        max ((13:Rat)/10)
          ((5:Rat)/2 + ((1:Rat)/10 - (5 - 1) * ((2:Rat)/25 + (5 - 1) * ((1:Rat)/50)))) ) :=
  C6_scheduler_lapse ⟨1, "", "", "", 6, 3, 5/2, none, none⟩ 1 (by norm_num)

/-- C7 -- Easiness floor: for every row and quality in {1,3,4,5} the returned
easiness is at least 1.3, and no upper bound is imposed (for every bound B some
valid input yields easiness above B). -/
theorem C7_easiness_floor :
    (∀ (row : CardRow) (q : Int),
        (q = 1 ∨ q = 3 ∨ q = 4 ∨ q = 5) → (13:Rat)/10 ≤ (sm2_update row q).2.2) ∧
    (∀ B : Rat, ∃ (row : CardRow) (q : Int),
        (q = 1 ∨ q = 3 ∨ q = 4 ∨ q = 5) ∧ B < (sm2_update row q).2.2) := by
  constructor
  · intro row q _
    rw [sm2_update_ef_eq]
    split
    · exact le_refl _
    · next h => exact not_lt.mp h
  · intro B
    refine ⟨⟨1, "", "", "", 1, 1, max B 2 + 1, none, none⟩, 5, Or.inr (Or.inr (Or.inr rfl)), ?_⟩
    rw [sm2_update_ef_eq]
    have hraw : sm2_raw_ef (max B 2 + 1) 5 = max B 2 + 1 + 1/10 := by
      simp [sm2_raw_ef]
    have h2 : (2:Rat) ≤ max B 2 := le_max_right B 2
    have hge : (13:Rat)/10 ≤ sm2_raw_ef (max B 2 + 1) 5 := by
      rw [hraw]; linarith
    rw [if_neg (not_lt.mpr hge), hraw]
    have hB : B ≤ max B 2 := le_max_left B 2
    linarith

/-- Witness for C7: the floor instantiated at quality 1 on a concrete row. -/
theorem C7_easiness_floor_witness :
    (13:Rat)/10 ≤ (sm2_update ⟨1, "", "", "", 0, 0, 5/2, none, none⟩ 1).2.2 :=
  C7_easiness_floor.1 ⟨1, "", "", "", 0, 0, 5/2, none, none⟩ 1 (Or.inl rfl)

/-! ## Transliteration engine: character helpers (lines 1241-1286) -/

/-- _has_kana: some character lies in the hiragana (3040-309F) or katakana
(30A0-30FF) block. -/
def hasKana (s : String) : Bool :=
  s.data.any fun ch =>
    (0x3040 ≤ ch.toNat ∧ ch.toNat ≤ 0x309F) ∨ (0x30A0 ≤ ch.toNat ∧ ch.toNat ≤ 0x30FF)

/-- _has_kanji: some character lies in the CJK ideograph block 4E00-9FFF. -/
def hasKanji (s : String) : Bool :=
  s.data.any fun ch => 0x4E00 ≤ ch.toNat ∧ ch.toNat ≤ 0x9FFF

/-- _kata_to_hira, per character: shift the katakana block 30A1-30F6 down by
0x60, leave everything else alone. -/
def kataToHiraChar (c : Char) : Char :=
  if 0x30A1 ≤ c.toNat ∧ c.toNat ≤ 0x30F6 then Char.ofNat (c.toNat - 0x60) else c

/-- _hira_to_kata, per character: shift the hiragana block 3041-3096 up by
0x60; the ゔ/ゕ/ゖ special cases of the source chain are kept although the
range test already covers them. -/
def hiraToKataChar (c : Char) : Char :=
  if 0x3041 ≤ c.toNat ∧ c.toNat ≤ 0x3096 then Char.ofNat (c.toNat + 0x60)
  else if c = 'ゔ' then 'ヴ'
  else if c = 'ゕ' then 'ヵ'
  else if c = 'ゖ' then 'ヶ'
  else c

/-- Python str.strip / str.lower on char lists (str.strip with no argument
removes leading and trailing whitespace). -/
def stripL (l : List Char) : List Char :=
  ((l.dropWhile Char.isWhitespace).reverse.dropWhile Char.isWhitespace).reverse

def pyStrip (s : String) : String := ⟨stripL s.data⟩

/-- Association-list lookup used to model the Python dict lookups of the
transliteration tables. -/
def findVal {κ ν : Type} [DecidableEq κ] : List (κ × ν) → κ → Option ν
  | [], _ => none
  | p :: t, w => if p.1 = w then some p.2 else findVal t w

/-! ## kana_to_romaji (lines 1320-1399) -/

/-- The two-character digraph table of kana_to_romaji. -/
def digraphK : List (List Char × List Char) :=
  [("きゃ".data, "kya".data), ("きゅ".data, "kyu".data), ("きょ".data, "kyo".data),
   ("ぎゃ".data, "gya".data), ("ぎゅ".data, "gyu".data), ("ぎょ".data, "gyo".data),
   ("しゃ".data, "sha".data), ("しゅ".data, "shu".data), ("しょ".data, "sho".data),
   ("じゃ".data, "ja".data), ("じゅ".data, "ju".data), ("じょ".data, "jo".data),
   ("ちゃ".data, "cha".data), ("ちゅ".data, "chu".data), ("ちょ".data, "cho".data),
   ("にゃ".data, "nya".data), ("にゅ".data, "nyu".data), ("にょ".data, "nyo".data),
   ("ひゃ".data, "hya".data), ("ひゅ".data, "hyu".data), ("ひょ".data, "hyo".data),
   ("びゃ".data, "bya".data), ("びゅ".data, "byu".data), ("びょ".data, "byo".data),
   ("ぴゃ".data, "pya".data), ("ぴゅ".data, "pyu".data), ("ぴょ".data, "pyo".data),
   ("みゃ".data, "mya".data), ("みゅ".data, "myu".data), ("みょ".data, "myo".data),
   ("りゃ".data, "rya".data), ("りゅ".data, "ryu".data), ("りょ".data, "ryo".data),
   ("ゔぁ".data, "va".data), ("ゔぃ".data, "vi".data), ("ゔぇ".data, "ve".data),
   ("ゔぉ".data, "vo".data)]

/-- The single-character table of kana_to_romaji. -/
def monoK : List (Char × List Char) :=
  [('あ', "a".data), ('い', "i".data), ('う', "u".data), ('え', "e".data), ('お', "o".data),
   ('か', "ka".data), ('き', "ki".data), ('く', "ku".data), ('け', "ke".data), ('こ', "ko".data),
   ('が', "ga".data), ('ぎ', "gi".data), ('ぐ', "gu".data), ('げ', "ge".data), ('ご', "go".data),
   ('さ', "sa".data), ('し', "shi".data), ('す', "su".data), ('せ', "se".data), ('そ', "so".data),
   ('ざ', "za".data), ('じ', "ji".data), ('ず', "zu".data), ('ぜ', "ze".data), ('ぞ', "zo".data),
   ('た', "ta".data), ('ち', "chi".data), ('つ', "tsu".data), ('て', "te".data), ('と', "to".data),
   ('だ', "da".data), ('ぢ', "ji".data), ('づ', "zu".data), ('で', "de".data), ('ど', "do".data),
   ('な', "na".data), ('に', "ni".data), ('ぬ', "nu".data), ('ね', "ne".data), ('の', "no".data),
   ('は', "ha".data), ('ひ', "hi".data), ('ふ', "fu".data), ('へ', "he".data), ('ほ', "ho".data),
   ('ば', "ba".data), ('び', "bi".data), ('ぶ', "bu".data), ('べ', "be".data), ('ぼ', "bo".data),
   ('ぱ', "pa".data), ('ぴ', "pi".data), ('ぷ', "pu".data), ('ぺ', "pe".data), ('ぽ', "po".data),
   ('ま', "ma".data), ('み', "mi".data), ('む', "mu".data), ('め', "me".data), ('も', "mo".data),
   ('や', "ya".data), ('ゆ', "yu".data), ('よ', "yo".data),
   ('ら', "ra".data), ('り', "ri".data), ('る', "ru".data), ('れ', "re".data), ('ろ', "ro".data),
   ('わ', "wa".data), ('を', "o".data), ('ん', "n".data),
   ('ぁ', "a".data), ('ぃ', "i".data), ('ぅ', "u".data), ('ぇ', "e".data), ('ぉ', "o".data),
   ('ゔ', "vu".data), ('ゎ', "wa".data), ('ゕ', "ka".data), ('ゖ', "ka".data),
   ('ー', "-".data), ('っ', "".data)]

/-- The consonant letters whose doubling renders a sokuon
("bcdfghjklmnpqrstvwxyz"). -/
def consonantsL : List Char := "bcdfghjklmnpqrstvwxyz".data

/-- mono.get(ch, ch): the single-character mapping with the character itself
as the default (unmapped characters pass through). -/
def monoDef (c : Char) : List Char := (findVal monoK c).getD [c]

/-- A pending sokuon doubles the leading consonant of the next token. -/
def emitTok (sok : Bool) (tok : List Char) : List Char :=
  if sok then
    match tok with
    | c :: _ => if c ∈ consonantsL then c :: tok else tok
    | [] => tok
  else tok

/-- The token-collecting scan of kana_to_romaji: longest match first
(digraphs before single characters), a small tsu only sets the sokuon flag. -/
def kanaScanGo : Bool → List Char → List (List Char)
  | _, [] => []
  | sok, [c] => if c = 'っ' then [] else [emitTok sok (monoDef c)]
  | sok, c :: c2 :: rest2 =>
    if c = 'っ' then kanaScanGo true (c2 :: rest2)
    else
      match findVal digraphK [c, c2] with
      | some tok => emitTok sok tok :: kanaScanGo false rest2
      | none => emitTok sok (monoDef c) :: kanaScanGo false (c2 :: rest2)

def vowelsL : List Char := "aeiou".data

/-- last_vowel update: the first vowel of the reversed token, else the
previous value. -/
def lastVowelUpd (tok lv : List Char) : List Char :=
  match tok.reverse.find? (· ∈ vowelsL) with
  | some v => [v]
  | none => lv

/-- The output pass of kana_to_romaji: a "-" token repeats the vowel of the
last emitted syllable (or nothing), every other token is appended as is. -/
def kanaPost : List (List Char) → List Char → List Char
  | [], _ => []
  | tok :: ts, lv =>
    if tok = ['-'] then lv ++ kanaPost ts lv
    else tok ++ kanaPost ts (lastVowelUpd tok lv)

/-- kana_to_romaji: katakana are normalised to hiragana, the string is
scanned into romaji tokens, and the long-vowel pass joins them. -/
def kana_to_romaji (s : String) : String :=
  if s = "" then ""
  else ⟨kanaPost (kanaScanGo false (s.data.map kataToHiraChar)) []⟩

/-! ## romaji_to_kana (lines 1402-1525) -/

/-- Python str.replace for a nonempty pattern: every non-overlapping
occurrence, scanned left to right, is replaced.  The fuel argument makes the
recursion structural; every step consumes at least one character, so any fuel
at least the input length gives the loop's value (the zero-fuel row is never
reached from replaceAll below). -/
def replaceAllGo (pat rep : List Char) : Nat → List Char → List Char
  | _, [] => []
  | 0, l => l
  | fuel + 1, c :: rest =>
    if pat ≠ [] ∧ pat.isPrefixOf (c :: rest) then
      rep ++ replaceAllGo pat rep fuel ((c :: rest).drop pat.length)
    else c :: replaceAllGo pat rep fuel rest

def replaceAll (pat rep l : List Char) : List Char :=
  replaceAllGo pat rep l.length l

/-- The substitution list of _merge_split_x: the split "consonant+i+x-escape"
spellings of the palatalised syllables are collapsed into their digraphs. -/
def xReps : List (List Char × List Char) :=
  [("kixya".data, "kya".data), ("kixyu".data, "kyu".data), ("kixyo".data, "kyo".data),
   ("gixya".data, "gya".data), ("gixyu".data, "gyu".data), ("gixyo".data, "gyo".data),
   ("sixya".data, "sha".data), ("sixyu".data, "shu".data), ("sixyo".data, "sho".data),
   ("shixya".data, "sha".data), ("shixyu".data, "shu".data), ("shixyo".data, "sho".data),
   ("jixya".data, "ja".data), ("jixyu".data, "ju".data), ("jixyo".data, "jo".data),
   ("chixya".data, "cha".data), ("chixyu".data, "chu".data), ("chixyo".data, "cho".data),
   ("nixya".data, "nya".data), ("nixyu".data, "nyu".data), ("nixyo".data, "nyo".data),
   ("hixya".data, "hya".data), ("hixyu".data, "hyu".data), ("hixyo".data, "hyo".data),
   ("bixya".data, "bya".data), ("bixyu".data, "byu".data), ("bixyo".data, "byo".data),
   ("pixya".data, "pya".data), ("pixyu".data, "pyu".data), ("pixyo".data, "pyo".data),
   ("mixya".data, "mya".data), ("mixyu".data, "myu".data), ("mixyo".data, "myo".data),
   ("rixya".data, "rya".data), ("rixyu".data, "ryu".data), ("rixyo".data, "ryo".data)]

/-- _merge_split_x: the substitutions applied in order. -/
def mergeSplitX (l : List Char) : List Char :=
  xReps.foldl (fun acc p => replaceAll p.1 p.2 acc) l

/-- The x-prefixed small-kana table of romaji_to_kana. -/
def xmapR : List (List Char × List Char) :=
  [("xa".data, "ぁ".data), ("xi".data, "ぃ".data), ("xu".data, "ぅ".data),
   ("xe".data, "ぇ".data), ("xo".data, "ぉ".data),
   ("xya".data, "ゃ".data), ("xyu".data, "ゅ".data), ("xyo".data, "ょ".data),
   ("xtsu".data, "っ".data), ("xwa".data, "ゎ".data)]

/-- The digraph table of romaji_to_kana (the ja/ju/jo keys are two letters
long; every other key has three letters). -/
def digraphR : List (List Char × List Char) :=
  [("kya".data, "きゃ".data), ("kyu".data, "きゅ".data), ("kyo".data, "きょ".data),
   ("gya".data, "ぎゃ".data), ("gyu".data, "ぎゅ".data), ("gyo".data, "ぎょ".data),
   ("sha".data, "しゃ".data), ("shu".data, "しゅ".data), ("sho".data, "しょ".data),
   ("ja".data, "じゃ".data), ("ju".data, "じゅ".data), ("jo".data, "じょ".data),
   ("cha".data, "ちゃ".data), ("chu".data, "ちゅ".data), ("cho".data, "ちょ".data),
   ("nya".data, "にゃ".data), ("nyu".data, "にゅ".data), ("nyo".data, "にょ".data),
   ("hya".data, "ひゃ".data), ("hyu".data, "ひゅ".data), ("hyo".data, "ひょ".data),
   ("bya".data, "びゃ".data), ("byu".data, "びゅ".data), ("byo".data, "びょ".data),
   ("pya".data, "ぴゃ".data), ("pyu".data, "ぴゅ".data), ("pyo".data, "ぴょ".data),
   ("mya".data, "みゃ".data), ("myu".data, "みゅ".data), ("myo".data, "みょ".data),
   ("rya".data, "りゃ".data), ("ryu".data, "りゅ".data), ("ryo".data, "りょ".data)]

/-- The monograph table of romaji_to_kana (one to three letters per key). -/
def monoR : List (List Char × List Char) :=
  [("a".data, "あ".data), ("i".data, "い".data), ("u".data, "う".data),
   ("e".data, "え".data), ("o".data, "お".data),
   ("ka".data, "か".data), ("ki".data, "き".data), ("ku".data, "く".data),
   ("ke".data, "け".data), ("ko".data, "こ".data),
   ("ga".data, "が".data), ("gi".data, "ぎ".data), ("gu".data, "ぐ".data),
   ("ge".data, "げ".data), ("go".data, "ご".data),
   ("sa".data, "さ".data), ("shi".data, "し".data), ("su".data, "す".data),
   ("se".data, "せ".data), ("so".data, "そ".data),
   ("za".data, "ざ".data), ("ji".data, "じ".data), ("zu".data, "ず".data),
   ("ze".data, "ぜ".data), ("zo".data, "ぞ".data),
   ("ta".data, "た".data), ("chi".data, "ち".data), ("tsu".data, "つ".data),
   ("te".data, "て".data), ("to".data, "と".data),
   ("da".data, "だ".data), ("di".data, "ぢ".data), ("du".data, "づ".data),
   ("de".data, "で".data), ("do".data, "ど".data),
   ("na".data, "な".data), ("ni".data, "に".data), ("nu".data, "ぬ".data),
   ("ne".data, "ね".data), ("no".data, "の".data),
   ("ha".data, "は".data), ("hi".data, "ひ".data), ("fu".data, "ふ".data),
   ("he".data, "へ".data), ("ho".data, "ほ".data),
   ("ba".data, "ば".data), ("bi".data, "び".data), ("bu".data, "ぶ".data),
   ("be".data, "べ".data), ("bo".data, "ぼ".data),
   ("pa".data, "ぱ".data), ("pi".data, "ぴ".data), ("pu".data, "ぷ".data),
   ("pe".data, "ぺ".data), ("po".data, "ぽ".data),
   ("ma".data, "ま".data), ("mi".data, "み".data), ("mu".data, "む".data),
   ("me".data, "め".data), ("mo".data, "も".data),
   ("ya".data, "や".data), ("yu".data, "ゆ".data), ("yo".data, "よ".data),
   ("ra".data, "ら".data), ("ri".data, "り".data), ("ru".data, "る".data),
   ("re".data, "れ".data), ("ro".data, "ろ".data),
   ("wa".data, "わ".data), ("wo".data, "を".data)]

/-- The word-final / not-before-vowel-or-y side condition on the lone nasal
letter. -/
def nGate : List Char → Bool
  | [] => true
  | d :: _ => decide (d ∉ vowelsL) && decide (d ≠ 'y')

/-- The main parse loop of romaji_to_kana.  A window peek s[i:i+n] may be
shorter than n near the end of the input, exactly as a Python slice; a failed
position returns none.  The lone nasal letter becomes ん only word-finally or
before a character that is neither a vowel nor y.  The fuel argument makes
the recursion structural; every iteration consumes at least one character, so
any fuel at least the input length gives the loop's value (the zero-fuel row
is never reached from parseGo below). -/
def parseGoF : Nat → List Char → Option (List Char)
  | _, [] => some []
  | 0, _ :: _ => none
  | fuel + 1, c :: rest =>
    if c = 'x' then
      match findVal xmapR ((c :: rest).take 4) with
      | some k => (parseGoF fuel ((c :: rest).drop 4)).map (k ++ ·)
      | none =>
        match findVal xmapR ((c :: rest).take 3) with
        | some k => (parseGoF fuel ((c :: rest).drop 3)).map (k ++ ·)
        | none =>
          match findVal xmapR ((c :: rest).take 2) with
          | some k => (parseGoF fuel ((c :: rest).drop 2)).map (k ++ ·)
          | none => none
    else
      match findVal digraphR ((c :: rest).take 3) with
      | some k => (parseGoF fuel ((c :: rest).drop 3)).map (k ++ ·)
      | none =>
        match findVal monoR ((c :: rest).take 3) with
        | some k => (parseGoF fuel ((c :: rest).drop 3)).map (k ++ ·)
        | none =>
          match findVal monoR ((c :: rest).take 2) with
          | some k => (parseGoF fuel ((c :: rest).drop 2)).map (k ++ ·)
          | none =>
            match findVal monoR ((c :: rest).take 1) with
            | some k => (parseGoF fuel ((c :: rest).drop 1)).map (k ++ ·)
            | none =>
              if c = 'n' ∧ nGate rest then (parseGoF fuel rest).map ('ん' :: ·)
              else none

def parseGo (s : List Char) : Option (List Char) := parseGoF s.length s

/-- romaji_to_kana: none on the empty string, else strip, lower, collapse the
split x-spellings, parse, and return the hiragana with its katakana image. -/
def romaji_to_kana (s : String) : Option (String × String) :=
  if s = "" then none
  else
    match parseGo (mergeSplitX ((stripL s.data).map Char.toLower)) with
    | some hira => some (⟨hira⟩, ⟨hira.map hiraToKataChar⟩)
    | none => none

/-- The descending prefix retry loop of romaji_to_kana_relaxed:
tries s[:j], s[:j-1], ..., s[:0], first success wins, else ("", ""). -/
def relaxTry (s : List Char) : Nat → String × String
  | 0 =>
    match romaji_to_kana ⟨s.take 0⟩ with
    | some r => r
    | none => ("", "")
  | j + 1 =>
    match romaji_to_kana ⟨s.take (j + 1)⟩ with
    | some r => r
    | none => relaxTry s j

/-- romaji_to_kana_relaxed: strict parse of the stripped, lowered input,
falling back to the longest parsable prefix, never failing. -/
def romaji_to_kana_relaxed (s : String) : String × String :=
  let t := (stripL s.data).map Char.toLower
  if t = [] then ("", "")
  else
    match romaji_to_kana ⟨t⟩ with
    | some r => r
    | none => relaxTry t (t.length - 1)

/-! ## C4: empty input in every transliteration direction -/

/-- Counterexample to C4 as stated: on empty input the strict direction
romaji_to_kana returns none, the absent/failure value, not an empty
(non-failing, non-absent) result as the claim asserts. -/
theorem C4_empty_strict_counterexample : romaji_to_kana "" = none := rfl

/-- C4 amended: empty input yields empty output for kana_to_romaji and for
romaji_to_kana_relaxed, but strict romaji_to_kana signals the absent result
(none) on empty input. -/
theorem C4_empty_input_amended :
    kana_to_romaji "" = "" ∧
    romaji_to_kana_relaxed "" = ("", "") ∧
    romaji_to_kana "" = none :=
  ⟨rfl, rfl, rfl⟩

/-! ## Answer-equivalence checker (helpers at lines 1181-1211, 1539-1544;
acceptance logic inside StudyWindow.check_answer, lines 5388-5436) -/

/-- norm: strip, with None treated as the empty string. -/
def norm (s : String) : String := pyStrip s

/-- get_jp_kanji: row[11] stripped when present and truthy, else "". -/
def get_jp_kanji (row : CardRow) : String :=
  match row.jp_kanji with
  | some s => if s = "" then "" else pyStrip s
  | none => ""

/-- get_jp_kana: row[12] stripped when present and truthy, else "". -/
def get_jp_kana (row : CardRow) : String :=
  match row.jp_kana with
  | some s => if s = "" then "" else pyStrip s
  | none => ""

/-- pick_kana: the jp_kana field when it actually contains kana, else the
term field when it contains kana, else "". -/
def pick_kana (row : CardRow) : String :=
  let jp_kana := get_jp_kana row
  if hasKana jp_kana then pyStrip jp_kana
  else
    let term := norm row.term
    if hasKana term then term else ""

/-- The answer set built in check_answer: normalised pick_kana and jp_kanji
when nonempty, and the raw (normalised) term when it contains kana or kanji.
The Python set is modelled as a list with membership. -/
def answersOf (row : CardRow) : List String :=
  let kana := pick_kana row
  let kanji := get_jp_kanji row
  let term := norm row.term
  (if kana ≠ "" then [norm kana] else []) ++
  (if kanji ≠ "" then [norm kanji] else []) ++
  (if term ≠ "" ∧ (hasKana term ∨ hasKanji term) then [term] else [])

/-- The direct acceptance test of check_answer:
correct = bool(user_input) and (norm(user_input) in answers). -/
def correctDirect (row : CardRow) (text : String) : Bool :=
  let u := norm text
  u ≠ "" ∧ norm u ∈ answersOf row

/-- The external dictionary collaborator: get_full(key) returns
(term, kana, meaning) or none. -/
def JaZhDict : Type := String → Option (String × String × String)

/-- The kanji-alternate-spelling fallback of check_answer (lines 5424-5436):
when the direct test failed and the typed string contains kanji, look the
typed string up in the dictionary and accept when the entry's kana equals the
card's canonical kana. -/
def fallbackAccept (dict : JaZhDict) (row : CardRow) (text : String) : Bool :=
  let u := norm text
  if hasKanji u then
    let std0 := norm (pick_kana row)
    let std :=
      if std0 = "" then
        let t := pyStrip row.term
        if t ≠ "" ∧ hasKana t then norm t else ""
      else std0
    if std ≠ "" then
      match dict u with
      | some ent => norm ent.2.1 = std
      | none => false
    else false
  else false

/-- The complete acceptance decision of check_answer: the direct equality
test, then the dictionary kanji fallback. -/
def checkAccept (dict : JaZhDict) (row : CardRow) (text : String) : Bool :=
  if correctDirect row text then true else fallbackAccept dict row text

/-! ## Review-session judgment operations (StudyWindow, lines 5117-5493)

The session state keeps the fields of the source that the judgment
operations read or write: the current queue entry (card snapshot and
direction), the running totals, the _rated flag, the persisted
interval/repetition/ef triple of the current card, the append-only review
event log (mode, quality), and - as an explicit trace - the list of quality
values passed to sm2_update. -/

structure SessionState where
  row : CardRow
  mode : Int
  session_total : Nat
  session_correct : Nat
  rated : Bool
  stored : Int × Int × Rat
  reviews : List (Int × Int)
  schedulerCalls : List Int
deriving DecidableEq, Repr

/-- _record_review (lines 5117-5130): appends a review event unless the
card id is falsy. -/
def record_review (quality : Int) (s : SessionState) : SessionState :=
  if s.row.id = 0 then s
  else { s with reviews := s.reviews ++ [(s.mode, quality)] }

/-- submit_rating (lines 5132-5158), the Recognition judgment of v4.0.0:
guarded by _rated; updates the correct total for quality 4/5, records a
review event, increments the attempted total, and sets _rated.  In this
version of the source the scheduler call and the card-state write-back are
absent (only a placeholder comment remains at lines 5137-5138), so stored
and schedulerCalls are untouched. -/
def submit_rating (quality : Int) (s : SessionState) : SessionState :=
  if s.rated then s
  else
    let s1 := { s with session_correct :=
        s.session_correct + (if quality = 4 ∨ quality = 5 then 1 else 0) }
    let s2 := record_review quality s1
    { s2 with session_total := s2.session_total + 1, rated := true }

/-- check_answer (lines 5381-5452), the Recall typed-answer judgment, in
source order: direct test, totals guarded by _rated, _rated set, review
event with the pre-fallback quality, dictionary fallback, then sm2_update on
the queue snapshot and the card-state write-back (no early return once the
mode is Recall). -/
def check_answer (dict : JaZhDict) (text : String) (s : SessionState) :
    SessionState :=
  if s.mode ≠ 1 then s
  else
    let correct := correctDirect s.row text
    let s1 :=
      if ¬s.rated then
        { s with session_total := s.session_total + 1,
                 session_correct := s.session_correct + (if correct then 1 else 0) }
      else s
    let s2 := { s1 with rated := true }
    let s3 := record_review (if correct then 4 else 1) s2
    let correct2 := checkAccept dict s.row text
    let q : Int := if correct2 then 4 else 1
    { s3 with stored := sm2_update s.row q,
              schedulerCalls := s3.schedulerCalls ++ [q] }

/-- mark_fail (lines 5454-5493), the Recall give-up judgment: sm2_update at
quality 1 with the card-state write-back, an unconditional totals increment,
_rated set, and a quality-1 review event.  There is no _rated guard in the
source. -/
def mark_fail (s : SessionState) : SessionState :=
  if s.mode ≠ 1 then s
  else
    let s1 := { s with stored := sm2_update s.row 1,
                       schedulerCalls := s.schedulerCalls ++ [1],
                       session_total := s.session_total + 1,
                       rated := true }
    record_review 1 s1

/-! ## Queue queries: list_cards_by_unit (461-488), list_due_cards (492-493) -/

/-- The scope argument of the queue queries, mirroring the Python value:
None, a single string, or a collection of possibly-None strings. -/
inductive UnitScope where
  | nullScope : UnitScope
  | str : String → UnitScope
  | multi : List (Option String) → UnitScope

/-- ORDER BY unit, id (SQLite BINARY collation is code-point order on UTF-8,
which String.lt matches). -/
def dbSortUnitId (l : List CardRow) : List CardRow :=
  l.mergeSort fun a b =>
    a.unit < b.unit ∨ (a.unit = b.unit ∧ a.id ≤ b.id)

/-- ORDER BY id. -/
def dbSortId (l : List CardRow) : List CardRow :=
  l.mergeSort fun a b => a.id ≤ b.id

/-- The normalisation of the multi-unit scope: strip each name, drop empties,
the "all units" sentinel, and duplicates, keeping first occurrences. -/
def collectUnits : List (Option String) → List String → List String
  | [], _ => []
  | u :: rest, seen =>
    let name := pyStrip (u.getD "")
    if name = "" ∨ name = "所有单元" then collectUnits rest seen
    else if name ∈ seen then collectUnits rest seen
    else name :: collectUnits rest (name :: seen)

/-- list_cards_by_unit: all cards for the null/empty/"all units" scope
ordered by (unit, id); the IN-filtered cards for a multi scope (falling back
to all when the normalised unit list is empty); the unit-filtered cards
ordered by id for a single unit. -/
def list_cards_by_unit (db : List CardRow) (unit : UnitScope) : List CardRow :=
  match unit with
  | .nullScope => dbSortUnitId db
  | .str u =>
    if u = "" ∨ u = "所有单元" then dbSortUnitId db
    else dbSortId (db.filter fun r => r.unit = u)
  | .multi l =>
    let units := collectUnits l []
    if units = [] then dbSortUnitId db
    else dbSortUnitId (db.filter fun r => r.unit ∈ units)

/-- list_due_cards: the source keeps the name for compatibility but no longer
filters by due date; it delegates to list_cards_by_unit. -/
def list_due_cards (db : List CardRow) (unit : UnitScope) : List CardRow :=
  list_cards_by_unit db unit

/-- C9 -- Queue construction never filters by due date: for every database
and every unit scope (single unit, set of units, or all),
list_due_cards returns exactly the same ordered rows as list_cards_by_unit,
so every fetched card is eligible for review every time. -/
theorem C9_due_equals_by_unit :
    ∀ (db : List CardRow) (unit : UnitScope),
      list_due_cards db unit = list_cards_by_unit db unit :=
  fun _ _ => rfl

/-! ## Concrete fixtures for the session claims -/

/-- A concrete card: term ねこ, kanji 猫, kana ねこ, fresh memory state. -/
def demoRow : CardRow := ⟨7, "U1", "ねこ", "猫；cat", 0, 0, 5/2, some "猫", some "ねこ"⟩

/-- The dictionary collaborator with no entries. -/
def emptyDict : JaZhDict := fun _ => none

/-- A dictionary resolving the alternate kanji spelling 貓 to the kana ねこ. -/
def variantDict : JaZhDict :=
  fun t => if t = "貓" then some ("貓", "ねこ", "cat") else none

/-- A fresh Recognition-direction queue position on demoRow. -/
def demoRecog : SessionState := ⟨demoRow, 0, 0, 0, false, (0, 0, 5/2), [], []⟩

/-- A fresh Recall-direction queue position on demoRow. -/
def demoRecall : SessionState := ⟨demoRow, 1, 0, 0, false, (0, 0, 5/2), [], []⟩

/-- C1 -- the claim is the intended behaviour but v4.0.0 violates it in the
Recognition direction: judging quality 4 at a fresh Recognition position
records a review event and updates the totals, yet performs no scheduler
invocation and leaves the persisted card state untouched (the scheduler call
of every earlier version was replaced by a placeholder comment at lines
5137-5138).  The Recall direction still conforms: check_answer invokes
sm2_update on the pre-judgment snapshot and writes the triple back together
with a review event. -/
theorem C1_recognition_judgment_skips_scheduler :
    (submit_rating 4 demoRecog).schedulerCalls = [] ∧
    (submit_rating 4 demoRecog).stored = demoRecog.stored ∧
    (submit_rating 4 demoRecog).reviews = [(0, 4)] ∧
    (submit_rating 4 demoRecog).session_total = 1 ∧
    (check_answer emptyDict "ねこ" demoRecall).schedulerCalls = [4] ∧
    (check_answer emptyDict "ねこ" demoRecall).stored = sm2_update demoRow 4 ∧
    (check_answer emptyDict "ねこ" demoRecall).reviews = [(1, 4)] :=
  ⟨rfl, rfl, rfl, rfl, rfl, rfl, rfl⟩

/-- Counterexample to C2 as stated: judging the same Recall queue position
twice through check_answer performs TWO scheduler invocations and appends TWO
review events (only the totals increment is guarded), so the second call is
not a no-op. -/
theorem C2_double_judgment_counterexample :
    (check_answer emptyDict "ねこ" (check_answer emptyDict "ねこ" demoRecall)).schedulerCalls
      = [4, 4] ∧
    (check_answer emptyDict "ねこ" (check_answer emptyDict "ねこ" demoRecall)).reviews
      = [(1, 4), (1, 4)] ∧
    (check_answer emptyDict "ねこ" demoRecall).schedulerCalls = [4] ∧
    (check_answer emptyDict "ねこ" demoRecall).reviews = [(1, 4)] :=
  ⟨rfl, rfl, rfl, rfl⟩

theorem submit_rating_fields (q : Int) (s : SessionState) :
    submit_rating q s =
      if s.rated then s
      else
        { s with
          session_correct := s.session_correct + (if q = 4 ∨ q = 5 then 1 else 0),
          reviews := s.reviews ++ (if s.row.id = 0 then [] else [(s.mode, q)]),
          session_total := s.session_total + 1,
          rated := true } := by
  by_cases hr : s.rated <;> by_cases hid : s.row.id = 0 <;>
    simp [submit_rating, record_review, hr, hid]

theorem check_answer_fields (dict : JaZhDict) (text : String) (s : SessionState)
    (h : s.mode = 1) :
    check_answer dict text s =
      { row := s.row, mode := s.mode,
        session_total := if s.rated then s.session_total else s.session_total + 1,
        session_correct :=
          if s.rated then s.session_correct
          else s.session_correct + (if correctDirect s.row text then 1 else 0),
        rated := true,
        stored := sm2_update s.row (if checkAccept dict s.row text then 4 else 1),
        reviews := s.reviews ++
          (if s.row.id = 0 then []
           else [(s.mode, if correctDirect s.row text then 4 else 1)]),
        schedulerCalls :=
          s.schedulerCalls ++ [if checkAccept dict s.row text then 4 else 1] } := by
  by_cases hr : s.rated <;> by_cases hc : correctDirect s.row text <;>
    by_cases hid : s.row.id = 0 <;>
      simp [check_answer, record_review, h, hr, hc, hid]

/-- C2 amended: re-judging an already-judged queue position is a complete
no-op only in the Recognition direction (submit_rating).  In the Recall
direction a second check_answer call leaves the totals, the rated flag and
the persisted card state unchanged (the scheduler is re-run on the immutable
queue snapshot, so the same triple is written back), but it performs a second
scheduler invocation and appends a second review event. -/
theorem C2_idempotent_judgment_amended :
    (∀ (q q' : Int) (s : SessionState),
       submit_rating q' (submit_rating q s) = submit_rating q s) ∧
    (∀ (dict : JaZhDict) (text : String) (s : SessionState), s.mode = 1 →
       check_answer dict text (check_answer dict text s) =
         { check_answer dict text s with
             schedulerCalls := (check_answer dict text s).schedulerCalls ++
               [if checkAccept dict s.row text then 4 else 1],
             reviews := (check_answer dict text s).reviews ++
               (if s.row.id = 0 then []
                else [(1, if correctDirect s.row text then 4 else 1)]) }) := by
  constructor
  · intro q q' s
    by_cases hr : s.rated
    · rw [submit_rating_fields q s, if_pos hr, submit_rating_fields q' s, if_pos hr]
    · rw [submit_rating_fields q s, if_neg hr, submit_rating_fields q', if_pos rfl]
  · intro dict text s h
    have h1 : (check_answer dict text s).mode = 1 := by
      rw [check_answer_fields dict text s h]; exact h
    rw [check_answer_fields dict text (check_answer dict text s) h1,
        check_answer_fields dict text s h]
    simp [h]

/-- Witness for C2 amended: both parts at the concrete Recall fixture. -/
theorem C2_idempotent_judgment_witness :
    check_answer emptyDict "ねこ" (check_answer emptyDict "ねこ" demoRecall) =
      { check_answer emptyDict "ねこ" demoRecall with
          schedulerCalls := (check_answer emptyDict "ねこ" demoRecall).schedulerCalls ++
            [if checkAccept emptyDict demoRecall.row "ねこ" then 4 else 1],
          reviews := (check_answer emptyDict "ねこ" demoRecall).reviews ++
            (if demoRecall.row.id = 0 then []
             else [(1, if correctDirect demoRecall.row "ねこ" then 4 else 1)]) } :=
  C2_idempotent_judgment_amended.2 emptyDict "ねこ" demoRecall rfl

/-- Counterexample to C5 as stated: a Recall answer accepted only through the
dictionary kanji fallback (typed 貓 for the card ねこ/猫) drives the Scheduler
at quality 4, yet session_correct is NOT incremented (the totals are updated
before the fallback runs, from the pre-fallback outcome). -/
theorem C5_fallback_totals_counterexample :
    (check_answer variantDict "貓" demoRecall).schedulerCalls = [4] ∧
    (check_answer variantDict "貓" demoRecall).session_total = 1 ∧
    (check_answer variantDict "貓" demoRecall).session_correct = 0 ∧
    (check_answer variantDict "貓" demoRecall).reviews = [(1, 1)] :=
  ⟨rfl, rfl, rfl, rfl⟩

/-- C5 amended: on the first judgment of a card, session_total increases by
exactly 1 in every direction, and session_correct increases by 1 iff the
judgment's direct quality is at least 4: quality 4 or 5 in Recognition, and
in Recall a typed answer accepted by the direct equality test - an answer
accepted only via the dictionary kanji fallback does not increment
session_correct (although the Scheduler is invoked at quality 4); mark_fail
never increments session_correct. -/
theorem C5_running_totals_amended :
    (∀ (q : Int) (s : SessionState), s.rated = false →
       (q = 1 ∨ q = 3 ∨ q = 4 ∨ q = 5) →
       (submit_rating q s).session_total = s.session_total + 1 ∧
       ((submit_rating q s).session_correct = s.session_correct + 1 ↔ 4 ≤ q)) ∧
    (∀ (dict : JaZhDict) (text : String) (s : SessionState),
       s.rated = false → s.mode = 1 →
       (check_answer dict text s).session_total = s.session_total + 1 ∧
       ((check_answer dict text s).session_correct = s.session_correct + 1 ↔
          correctDirect s.row text = true)) ∧
    (∀ s : SessionState, s.mode = 1 →
       (mark_fail s).session_total = s.session_total + 1 ∧
       (mark_fail s).session_correct = s.session_correct) := by
  refine ⟨?_, ?_, ?_⟩
  · intro q s hr hq
    rw [submit_rating_fields q s]
    simp [hr]
    rcases hq with rfl | rfl | rfl | rfl <;> norm_num
  · intro dict text s hr h
    rw [check_answer_fields dict text s h]
    by_cases hc : correctDirect s.row text <;> simp [hr, hc]
  · intro s h
    by_cases hid : s.row.id = 0 <;> simp [mark_fail, record_review, h, hid]

/-- Witness for C5 amended: the Recognition part at quality 4 on the fresh
concrete fixture. -/
theorem C5_running_totals_witness :
    (submit_rating 4 demoRecog).session_total = demoRecog.session_total + 1 ∧
    ((submit_rating 4 demoRecog).session_correct = demoRecog.session_correct + 1 ↔
       (4:Int) ≤ 4) :=
  C5_running_totals_amended.1 4 demoRecog rfl (Or.inr (Or.inr (Or.inl rfl)))

/-! ## C8: answer equivalence -/

theorem dropWhile_dropWhile (p : Char → Bool) (l : List Char) :
    (l.dropWhile p).dropWhile p = l.dropWhile p := by
  induction l with
  | nil => rfl
  | cons c t ih =>
    by_cases h : p c
    · simp [List.dropWhile_cons, h, ih]
    · simp [List.dropWhile_cons, h]

theorem dropWhile_eq_self_of_head (p : Char → Bool) (l : List Char)
    (h : ∀ c ∈ l.head?, ¬ p c) : l.dropWhile p = l := by
  cases l with
  | nil => rfl
  | cons c t =>
    have : ¬ p c := h c (by simp)
    simp [List.dropWhile_cons, this]

theorem head_dropWhile_not (p : Char → Bool) (l : List Char) :
    ∀ c ∈ (l.dropWhile p).head?, ¬ p c := by
  induction l with
  | nil => simp
  | cons c t ih =>
    by_cases h : p c
    · simpa [List.dropWhile_cons, h] using ih
    · simp [List.dropWhile_cons, h]

theorem stripL_idem (l : List Char) : stripL (stripL l) = stripL l := by
  unfold stripL
  set A := l.dropWhile Char.isWhitespace with hA
  set B := A.reverse.dropWhile Char.isWhitespace with hB
  rcases hBe : B with _ | ⟨b, B'⟩
  · simp
  rw [← hBe]
  have hBne : B ≠ [] := by rw [hBe]; simp
  have h1 : B.reverse.dropWhile Char.isWhitespace = B.reverse := by
    apply dropWhile_eq_self_of_head
    intro c hc
    rw [List.head?_reverse] at hc
    have hgl : B.getLast? = A.reverse.getLast? := by
      conv_rhs =>
        rw [← List.takeWhile_append_dropWhile Char.isWhitespace A.reverse]
      rw [List.getLast?_append, ← hB]
      cases hgb : B.getLast?
      · exact absurd (List.getLast?_eq_none_iff.mp hgb) hBne
      · rfl
    rw [hgl, List.getLast?_reverse] at hc
    exact head_dropWhile_not Char.isWhitespace l c hc
  rw [h1, List.reverse_reverse, hB, dropWhile_dropWhile]

theorem pyStrip_idem (s : String) : pyStrip (pyStrip s) = pyStrip s := by
  simp [pyStrip, stripL_idem]

theorem norm_norm (s : String) : norm (norm s) = norm s := pyStrip_idem s

/-- Counterexample to C8 as stated: with the dictionary resolving the
alternate kanji spelling 貓 to the kana ねこ, the typed answer 貓 is accepted
for the card (term ねこ, kanji 猫, kana ねこ) although after trimming it
equals none of the stored kana, the stored kanji, or the term - the
acceptance is not an "iff" against those three forms because of the
dictionary fallback. -/
theorem C8_fallback_accepts_unlisted_form :
    checkAccept variantDict demoRow "貓" = true ∧
    demoRow.term = "ねこ" ∧
    demoRow.jp_kanji = some "猫" ∧
    demoRow.jp_kana = some "ねこ" ∧
    pyStrip "貓" ≠ "ねこ" ∧
    pyStrip "貓" ≠ "猫" :=
  ⟨rfl, rfl, rfl, rfl, by decide, by decide⟩

/-- C8 amended: a typed Recall answer is accepted iff, after whitespace
trimming, it is nonempty and exactly equals the card's effective kana reading
(pick_kana: the stored kana field when that field contains kana, else the
kana-bearing term), the card's stored kanji, or the card's raw term field
when that field contains kana or kanji - or the dictionary kanji fallback
accepts it.  In particular, for the card with kana ねこ and kanji 猫, typed
ねこ and typed 猫 both accept and typed ネコ (katakana) rejects, for every
dictionary. -/
theorem C8_answer_equivalence_amended :
    (∀ (dict : JaZhDict) (row : CardRow) (text : String),
       checkAccept dict row text = true ↔
         ((pyStrip text ≠ "" ∧
            ((pick_kana row ≠ "" ∧ pyStrip text = norm (pick_kana row)) ∨
             (get_jp_kanji row ≠ "" ∧ pyStrip text = norm (get_jp_kanji row)) ∨
             (norm row.term ≠ "" ∧ (hasKana (norm row.term) ∨ hasKanji (norm row.term)) ∧
              pyStrip text = norm row.term))) ∨
          fallbackAccept dict row text = true)) ∧
    (∀ dict : JaZhDict, checkAccept dict demoRow "ねこ" = true) ∧
    (∀ dict : JaZhDict, checkAccept dict demoRow "猫" = true) ∧
    (∀ dict : JaZhDict, checkAccept dict demoRow "ネコ" = false) := by
  refine ⟨?_, fun _ => rfl, fun _ => rfl, fun _ => rfl⟩
  intro dict row text
  have hsplit : checkAccept dict row text = true ↔
      correctDirect row text = true ∨ fallbackAccept dict row text = true := by
    by_cases hc : correctDirect row text <;> simp [checkAccept, hc]
  rw [hsplit]
  have hdirect : correctDirect row text = true ↔
      (pyStrip text ≠ "" ∧
        ((pick_kana row ≠ "" ∧ pyStrip text = norm (pick_kana row)) ∨
         (get_jp_kanji row ≠ "" ∧ pyStrip text = norm (get_jp_kanji row)) ∨
         (norm row.term ≠ "" ∧ (hasKana (norm row.term) ∨ hasKanji (norm row.term)) ∧
          pyStrip text = norm row.term))) := by
    simp only [correctDirect, answersOf, norm, pyStrip_idem]
    by_cases h1 : pick_kana row ≠ "" <;>
      by_cases h2 : get_jp_kanji row ≠ "" <;>
        by_cases h3 : pyStrip row.term ≠ "" ∧
            (hasKana (pyStrip row.term) ∨ hasKanji (pyStrip row.term)) <;>
          simp [h1, h2, h3, norm] <;> tauto
  rw [hdirect]

/-! ## C10: sokuon at the end of the input, or before a vowel-initial
syllable -/

theorem findVal_eq_none {ν : Type} (tbl : List (List Char × ν)) (w : List Char)
    (h : ∀ p ∈ tbl, p.1 ≠ w) : findVal tbl w = none := by
  induction tbl with
  | nil => rfl
  | cons p t ih =>
    have hp : p.1 ≠ w := h p (by simp)
    simp only [findVal, if_neg hp]
    exact ih fun q hq => h q (by simp [hq])

theorem digraphK_snd_ne_sokuon : ∀ p ∈ digraphK, p.1.drop 1 ≠ ['っ'] := by decide

theorem findVal_digraphK_sokuon (c : Char) : findVal digraphK [c, 'っ'] = none := by
  apply findVal_eq_none
  intro p hp heq
  exact digraphK_snd_ne_sokuon p hp (by simp [heq])

/-- The hiragana whose kana_to_romaji romanization begins with a vowel. -/
def vowelInitK : List Char := ['あ', 'い', 'う', 'え', 'お', 'ぁ', 'ぃ', 'ぅ', 'ぇ', 'ぉ', 'を']

theorem vowelInitK_facts : ∀ c ∈ vowelInitK,
    c ≠ 'っ' ∧ kataToHiraChar c = c ∧
    (∀ p ∈ digraphK, p.1.take 1 ≠ [c]) ∧
    (∀ c0 ∈ (monoDef c).take 1, c0 ∉ consonantsL) := by decide

theorem emitTok_eq_self (b : Bool) (t : List Char)
    (h : ∀ c0 ∈ t.take 1, c0 ∉ consonantsL) :
    emitTok b t = t := by
  cases b with
  | false => rfl
  | true =>
    cases t with
    | nil => rfl
    | cons c0 t0 =>
      have : c0 ∉ consonantsL := h c0 (by simp)
      simp [emitTok, this]

theorem findVal_digraphK_vowelInit (c : Char) (hc : c ∈ vowelInitK) (c2 : Char) :
    findVal digraphK [c, c2] = none := by
  apply findVal_eq_none
  intro p hp heq
  exact ((vowelInitK_facts c hc).2.2.1 p hp) (by simp [heq])

theorem kanaScanGo_append_sokuon :
    ∀ (sok : Bool) (l : List Char),
      kanaScanGo sok (l ++ ['っ']) = kanaScanGo sok l := by
  intro sok l
  induction sok, l using kanaScanGo.induct with
  | case1 b => simp [kanaScanGo]
  | case2 b => simp [kanaScanGo]
  | case3 b c hc => simp [kanaScanGo, hc, findVal_digraphK_sokuon]
  | case4 b c2 rest2 ih => simpa [kanaScanGo] using ih
  | case5 b c c2 rest2 hc tok hdg ih => simp [kanaScanGo, hc, hdg, ih]
  | case6 b c c2 rest2 hc hdg ih =>
    simp only [List.cons_append, kanaScanGo, if_neg hc, hdg]
    simpa using ih

/-- The flag set by a sokuon has no effect on a following vowel-initial
syllable:scanning っ followed by such a syllable equals scanning without
the っ. -/
theorem kanaScanGo_sokuon_before_vowel (c : Char) (hc : c ∈ vowelInitK)
    (b : Bool) (rest : List Char) :
    kanaScanGo b ('っ' :: c :: rest) = kanaScanGo b (c :: rest) := by
  have hcs : c ≠ 'っ' := (vowelInitK_facts c hc).1
  have hme : ∀ b', emitTok b' (monoDef c) = monoDef c := fun b' =>
    emitTok_eq_self b' (monoDef c) (vowelInitK_facts c hc).2.2.2
  cases rest with
  | nil =>
    show kanaScanGo true [c] = kanaScanGo b [c]
    simp [kanaScanGo, hcs, hme]
  | cons c2 t =>
    show kanaScanGo true (c :: c2 :: t) = kanaScanGo b (c :: c2 :: t)
    simp [kanaScanGo, hcs, findVal_digraphK_vowelInit c hc c2, hme]

/-- C10 -- a sokuon that ends the input contributes nothing (for every input
string), a sokuon immediately before a vowel-initial syllable contributes
nothing and doubles nothing (for every vowel-initial kana and every tail),
and concretely kana_to_romaji あっ = "a" and kana_to_romaji っあ = "a". -/
theorem C10_sokuon_edge_cases :
    (∀ s : String, kana_to_romaji (s ++ "っ") = kana_to_romaji s) ∧
    (∀ c ∈ vowelInitK, ∀ t : String,
       kana_to_romaji ⟨'っ' :: c :: t.data⟩ = kana_to_romaji ⟨c :: t.data⟩) ∧
    kana_to_romaji "あっ" = "a" ∧
    kana_to_romaji "っあ" = "a" := by
  refine ⟨?_, ?_, rfl, rfl⟩
  · intro s
    by_cases hs : s = ""
    · subst hs; rfl
    · have hne : s ++ "っ" ≠ "" := by
        intro h
        have := congrArg String.data h
        simp [String.data_append] at this
      rw [kana_to_romaji, kana_to_romaji, if_neg hne, if_neg hs]
      have hd : (s ++ "っ").data = s.data ++ ['っ'] := by
        simp [String.data_append]
      rw [hd, List.map_append]
      have hm : List.map kataToHiraChar ['っ'] = ['っ'] := by decide
      rw [hm, kanaScanGo_append_sokuon]
  · intro c hc t
    have h1 : (⟨'っ' :: c :: t.data⟩ : String) ≠ "" := by
      intro h
      have := congrArg String.data h
      simp at this
    have h2 : (⟨c :: t.data⟩ : String) ≠ "" := by
      intro h
      have := congrArg String.data h
      simp at this
    rw [kana_to_romaji, kana_to_romaji, if_neg h1, if_neg h2]
    show String.mk (kanaPost (kanaScanGo false
        (List.map kataToHiraChar ('っ' :: c :: t.data))) []) = _
    have hk : kataToHiraChar 'っ' = 'っ' := by decide
    simp only [List.map_cons, hk, (vowelInitK_facts c hc).2.1]
    rw [kanaScanGo_sokuon_before_vowel c hc]

/-- Witness for C10: the vowel-initial part applied at あ with an empty
tail, together with the trailing part applied at あ. -/
theorem C10_sokuon_edge_cases_witness :
    kana_to_romaji ("あ" ++ "っ") = kana_to_romaji "あ" ∧
    kana_to_romaji ⟨'っ' :: 'あ' :: "".data⟩ = kana_to_romaji ⟨'あ' :: "".data⟩ :=
  ⟨C10_sokuon_edge_cases.1 "あ",
   C10_sokuon_edge_cases.2.1 'あ' (by decide) ""⟩

/-! ## C3: the kana -> romaji -> kana round trip

The round trip as claimed fails on mapped syllables whose romanization is
shared with, or unreadable by, the parser (を romanizes to "o" which parses
back to お; ぢ/づ to ji/zu; ゔ-row to v-spellings the parser lacks; じゃ-row
to ja/ju/jo which the parser accepts only word-finally; っ to consonant
doubling; ー to vowel repetition).  The amended claim restricts the
syllables to a round-trip-safe set and proves the trip for every nonempty
sequence from it, with the nasal ん not immediately followed by a
vowel-initial or y-initial syllable. -/

/-- A queue of (kana, romaji) syllable tokens. -/
abbrev Tok := List Char × List Char

/-- The round-trip-safe syllables: the palatalised digraphs except the
じゃ-row and the ゔ-row, and the monographs except を, ぢ, づ, the small
kana, ゔ, っ and ー. -/
def safeToks : List Tok :=
  [("きゃ".data, "kya".data), ("きゅ".data, "kyu".data), ("きょ".data, "kyo".data),
   ("ぎゃ".data, "gya".data), ("ぎゅ".data, "gyu".data), ("ぎょ".data, "gyo".data),
   ("しゃ".data, "sha".data), ("しゅ".data, "shu".data), ("しょ".data, "sho".data),
   ("ちゃ".data, "cha".data), ("ちゅ".data, "chu".data), ("ちょ".data, "cho".data),
   ("にゃ".data, "nya".data), ("にゅ".data, "nyu".data), ("にょ".data, "nyo".data),
   ("ひゃ".data, "hya".data), ("ひゅ".data, "hyu".data), ("ひょ".data, "hyo".data),
   ("びゃ".data, "bya".data), ("びゅ".data, "byu".data), ("びょ".data, "byo".data),
   ("ぴゃ".data, "pya".data), ("ぴゅ".data, "pyu".data), ("ぴょ".data, "pyo".data),
   ("みゃ".data, "mya".data), ("みゅ".data, "myu".data), ("みょ".data, "myo".data),
   ("りゃ".data, "rya".data), ("りゅ".data, "ryu".data), ("りょ".data, "ryo".data),
   ("あ".data, "a".data), ("い".data, "i".data), ("う".data, "u".data),
   ("え".data, "e".data), ("お".data, "o".data),
   ("か".data, "ka".data), ("き".data, "ki".data), ("く".data, "ku".data),
   ("け".data, "ke".data), ("こ".data, "ko".data),
   ("が".data, "ga".data), ("ぎ".data, "gi".data), ("ぐ".data, "gu".data),
   ("げ".data, "ge".data), ("ご".data, "go".data),
   ("さ".data, "sa".data), ("し".data, "shi".data), ("す".data, "su".data),
   ("せ".data, "se".data), ("そ".data, "so".data),
   ("ざ".data, "za".data), ("じ".data, "ji".data), ("ず".data, "zu".data),
   ("ぜ".data, "ze".data), ("ぞ".data, "zo".data),
   ("た".data, "ta".data), ("ち".data, "chi".data), ("つ".data, "tsu".data),
   ("て".data, "te".data), ("と".data, "to".data),
   ("だ".data, "da".data), ("で".data, "de".data), ("ど".data, "do".data),
   ("な".data, "na".data), ("に".data, "ni".data), ("ぬ".data, "nu".data),
   ("ね".data, "ne".data), ("の".data, "no".data),
   ("は".data, "ha".data), ("ひ".data, "hi".data), ("ふ".data, "fu".data),
   ("へ".data, "he".data), ("ほ".data, "ho".data),
   ("ば".data, "ba".data), ("び".data, "bi".data), ("ぶ".data, "bu".data),
   ("べ".data, "be".data), ("ぼ".data, "bo".data),
   ("ぱ".data, "pa".data), ("ぴ".data, "pi".data), ("ぷ".data, "pu".data),
   ("ぺ".data, "pe".data), ("ぽ".data, "po".data),
   ("ま".data, "ma".data), ("み".data, "mi".data), ("む".data, "mu".data),
   ("め".data, "me".data), ("も".data, "mo".data),
   ("や".data, "ya".data), ("ゆ".data, "yu".data), ("よ".data, "yo".data),
   ("ら".data, "ra".data), ("り".data, "ri".data), ("る".data, "ru".data),
   ("れ".data, "re".data), ("ろ".data, "ro".data),
   ("わ".data, "wa".data), ("ん".data, "n".data)]

/-- The characters that can begin the kana of a safe token. -/
def kanaHeads : List Char :=
  ['き', 'ぎ', 'し', 'ち', 'に', 'ひ', 'び', 'ぴ', 'み', 'り',
   'あ', 'い', 'う', 'え', 'お', 'か', 'く', 'け', 'こ',
   'が', 'ぐ', 'げ', 'ご', 'さ', 'す', 'せ', 'そ',
   'ざ', 'じ', 'ず', 'ぜ', 'ぞ', 'た', 'つ', 'て', 'と',
   'だ', 'で', 'ど', 'な', 'ぬ', 'ね', 'の',
   'は', 'ふ', 'へ', 'ほ', 'ば', 'ぶ', 'べ', 'ぼ',
   'ぱ', 'ぷ', 'ぺ', 'ぽ', 'ま', 'む', 'め', 'も',
   'や', 'ゆ', 'よ', 'ら', 'る', 'れ', 'ろ', 'わ', 'ん']

/-- The letters that can begin the romaji of a safe token. -/
def romaHeads : List Char :=
  ['a', 'i', 'u', 'e', 'o', 'k', 'g', 's', 'z', 'j', 't', 'c', 'd',
   'n', 'h', 'f', 'b', 'p', 'm', 'y', 'r', 'w']

/-- The letters that may begin the syllable following ん: the safe heads
that are neither vowels nor y. -/
def afterN : List Char :=
  ['k', 'g', 's', 'z', 'j', 't', 'c', 'd', 'n', 'h', 'f', 'b', 'p', 'm', 'r', 'w']

/-- The small kana that occur as the second character of a digraph key. -/
def smallK : List Char := ['ゃ', 'ゅ', 'ょ', 'ぁ', 'ぃ', 'ぇ', 'ぉ']

/-- The per-token conditions that let the kana scanner consume exactly this
token: a single kana is in the mono table and is not the sokuon (no digraph
can start at it before a non-small head, by digraphK_snd_small below); a
double kana is a digraph. -/
def kanaTokOK (t : Tok) : Bool :=
  match t.1 with
  | [c1] => decide (c1 ≠ 'っ' ∧ findVal monoK c1 = some t.2)
  | [c1, c2] => decide (c1 ≠ 'っ' ∧ findVal digraphK [c1, c2] = some t.2)
  | _ => false

/-- The per-token conditions that let the romaji parser consume exactly this
token's romanization. -/
def romaTokOK (t : Tok) : Bool :=
  match t.2 with
  | [a, b, c] => decide (a ≠ 'x' ∧
      (findVal digraphR [a, b, c] = some t.1 ∨
       (findVal digraphR [a, b, c] = none ∧ findVal monoR [a, b, c] = some t.1)))
  | [a, b] => decide (a ≠ 'x' ∧ b ∈ vowelsL ∧
      findVal digraphR [a, b] = none ∧ findVal monoR [a, b] = some t.1)
  | [a] =>
    if a = 'n' then decide (t.1 = ['ん'])
    else decide (a ∈ vowelsL ∧ findVal digraphR [a] = none ∧
      findVal monoR [a] = some t.1)
  | _ => false

set_option maxRecDepth 40000 in
theorem safeToks_kana_ok : ∀ t ∈ safeToks, kanaTokOK t = true := by decide

set_option maxRecDepth 40000 in
theorem safeToks_roma_ok : ∀ t ∈ safeToks, romaTokOK t = true := by decide

set_option maxRecDepth 40000 in
theorem safeToks_shape : ∀ t ∈ safeToks,
    t.1 ≠ [] ∧ t.2 ≠ [] ∧
    (∀ c ∈ t.1.take 1, c ∈ kanaHeads) ∧
    (∀ c ∈ t.2.take 1, c ∈ romaHeads) ∧
    t.2 ≠ ['-'] ∧
    (∀ c ∈ t.1, kataToHiraChar c = c) ∧
    (∀ c ∈ t.2, Char.toLower c = c ∧ ¬ c.isWhitespace ∧ c ≠ 'x') ∧
    (t.2 = ['n'] → t.1 = ['ん']) := by decide

theorem afterN_facts : ∀ c ∈ afterN, c ∉ vowelsL ∧ c ≠ 'y' := by decide

theorem digraphK_snd_small :
    ∀ p ∈ digraphK, ∀ b ∈ (p.1.drop 1).take 1, b ∈ smallK := by decide

theorem kanaHeads_not_small : ∀ c ∈ kanaHeads, c ∉ smallK := by decide

theorem findVal_digraphK_nonsmall (c1 c : Char) (hc : c ∉ smallK) :
    findVal digraphK [c1, c] = none := by
  apply findVal_eq_none
  intro p hp heq
  exact hc (digraphK_snd_small p hp c (by simp [heq]))

theorem digraphR_head_not_vowel :
    ∀ p ∈ digraphR, ∀ c ∈ p.1.take 1, c ∉ vowelsL := by decide

theorem monoR_head_not_vowel :
    ∀ p ∈ monoR, 2 ≤ p.1.length → ∀ c ∈ p.1.take 1, c ∉ vowelsL := by decide

theorem digraphR_snd_not_vowel :
    ∀ p ∈ digraphR, p.1.length = 3 → ∀ b ∈ (p.1.drop 1).take 1, b ∉ vowelsL := by
  decide

theorem monoR_snd_not_vowel :
    ∀ p ∈ monoR, p.1.length = 3 → ∀ b ∈ (p.1.drop 1).take 1, b ∉ vowelsL := by
  decide

theorem digraphR_after_n :
    ∀ p ∈ digraphR, p.1.take 1 = ['n'] →
      ∀ b ∈ (p.1.drop 1).take 1, b = 'y' ∨ b ∈ vowelsL := by decide

theorem monoR_after_n :
    ∀ p ∈ monoR, p.1.take 1 = ['n'] →
      ∀ b ∈ (p.1.drop 1).take 1, b = 'y' ∨ b ∈ vowelsL := by decide

theorem lone_n_unmapped :
    findVal digraphR ['n'] = none ∧ findVal monoR ['n'] = none := by decide

/-- Concatenation of a token sequence's strings. -/
def joinL : List (List Char) → List Char
  | [] => []
  | u :: us => u ++ joinL us

theorem emitTok_false (t : List Char) : emitTok false t = t := rfl

theorem kanaScan_step (t : Tok) (ht : kanaTokOK t = true)
    (rest : List Char)
    (hrest : rest = [] ∨ ∃ c, c ∈ kanaHeads ∧ ∃ r', rest = c :: r') :
    kanaScanGo false (t.1 ++ rest) = t.2 :: kanaScanGo false rest := by
  rcases t with ⟨k, r⟩
  match k with
  | [] => exact absurd ht (by simp [kanaTokOK])
  | [c1] =>
    obtain ⟨hc1, hmono⟩ := of_decide_eq_true ht
    rcases hrest with rfl | ⟨c, hc, r', rfl⟩
    · show kanaScanGo false [c1] = [r]
      simp only [kanaScanGo, if_neg hc1, emitTok_false, monoDef, hmono, Option.getD_some]
    · show kanaScanGo false (c1 :: c :: r') = r :: kanaScanGo false (c :: r')
      have hdg : findVal digraphK [c1, c] = none :=
        findVal_digraphK_nonsmall c1 c (kanaHeads_not_small c hc)
      simp only [kanaScanGo, if_neg hc1, hdg, emitTok_false, monoDef, hmono,
        Option.getD_some]
  | [c1, c2] =>
    obtain ⟨hc1, hdg⟩ := of_decide_eq_true ht
    show kanaScanGo false (c1 :: c2 :: rest) = r :: kanaScanGo false rest
    simp only [kanaScanGo, if_neg hc1, hdg, emitTok_false]
  | _ :: _ :: _ :: _ => exact absurd ht (by simp [kanaTokOK])

theorem kanaScan_join :
    ∀ ts : List Tok, (∀ t ∈ ts, t ∈ safeToks) →
      kanaScanGo false (joinL (ts.map Prod.fst)) = ts.map Prod.snd := by
  intro ts
  induction ts with
  | nil => intro _; rfl
  | cons t ts ih =>
    intro hall
    have hts : ∀ u ∈ ts, u ∈ safeToks := fun u hu => hall u (by simp [hu])
    have ht : t ∈ safeToks := hall t (by simp)
    show kanaScanGo false (t.1 ++ joinL (ts.map Prod.fst)) = t.2 :: ts.map Prod.snd
    rw [kanaScan_step t (safeToks_kana_ok t ht), ih hts]
    cases ts with
    | nil => left; rfl
    | cons t' ts2 =>
      right
      have hsh := safeToks_shape t' (hts t' (by simp))
      rcases hk : t'.1 with _ | ⟨c, k'⟩
      · exact absurd hk hsh.1
      · refine ⟨c, ?_, k' ++ joinL (ts2.map Prod.fst), ?_⟩
        · exact hsh.2.2.1 c (by simp [hk])
        · show t'.1 ++ joinL (ts2.map Prod.fst) = _
          rw [hk]; rfl

theorem map_eq_self {f : Char → Char} :
    ∀ l : List Char, (∀ c ∈ l, f c = c) → l.map f = l := by
  intro l
  induction l with
  | nil => intro _; rfl
  | cons c t ih =>
    intro h
    simp only [List.map_cons, h c (by simp), ih fun d hd => h d (by simp [hd])]

theorem mem_joinL {c : Char} :
    ∀ L : List (List Char), c ∈ joinL L → ∃ u ∈ L, c ∈ u := by
  intro L
  induction L with
  | nil => intro h; exact absurd h (by simp [joinL])
  | cons u us ih =>
    intro h
    rcases List.mem_append.mp h with h | h
    · exact ⟨u, by simp, h⟩
    · obtain ⟨v, hv, hcv⟩ := ih h
      exact ⟨v, by simp [hv], hcv⟩

theorem kanaPost_eq_joinL :
    ∀ (toks : List (List Char)), (∀ u ∈ toks, u ≠ ['-']) →
      ∀ lv, kanaPost toks lv = joinL toks := by
  intro toks
  induction toks with
  | nil => intro _ _; rfl
  | cons u us ih =>
    intro h lv
    have hu : u ≠ ['-'] := h u (by simp)
    show kanaPost (u :: us) lv = u ++ joinL us
    rw [kanaPost, if_neg hu, ih fun v hv => h v (by simp [hv])]

theorem joinL_ne_nil (u : List Char) (hu : u ≠ []) (us : List (List Char)) :
    joinL (u :: us) ≠ [] := by
  show u ++ joinL us ≠ []
  simp [hu]

/-- kana_to_romaji on a nonempty sequence of safe syllables is the
concatenation of their romanizations. -/
theorem kana_to_romaji_join (ts : List Tok) (h1 : ts ≠ [])
    (h2 : ∀ t ∈ ts, t ∈ safeToks) :
    kana_to_romaji ⟨joinL (ts.map Prod.fst)⟩ = ⟨joinL (ts.map Prod.snd)⟩ := by
  obtain ⟨t, ts', rfl⟩ : ∃ t ts', ts = t :: ts' := by
    cases ts with
    | nil => exact absurd rfl h1
    | cons t ts' => exact ⟨t, ts', rfl⟩
  have hsh := safeToks_shape t (h2 t (by simp))
  have hne : (⟨joinL ((t :: ts').map Prod.fst)⟩ : String) ≠ "" := by
    intro h
    have hd := congrArg String.data h
    exact joinL_ne_nil t.1 hsh.1 _ (by simpa using hd)
  rw [kana_to_romaji, if_neg hne]
  have hid : (joinL ((t :: ts').map Prod.fst)).map kataToHiraChar
      = joinL ((t :: ts').map Prod.fst) := by
    apply map_eq_self
    intro c hc
    obtain ⟨u, hu, hcu⟩ := mem_joinL _ hc
    obtain ⟨t', ht', rfl⟩ := List.mem_map.mp hu
    exact (safeToks_shape t' (h2 t' ht')).2.2.2.2.2.1 c hcu
  show String.mk ((kanaPost (kanaScanGo false _) []) : List Char) = _
  rw [hid, kanaScan_join _ h2]
  rw [kanaPost_eq_joinL]
  intro u hu
  obtain ⟨t', ht', rfl⟩ := List.mem_map.mp hu
  exact (safeToks_shape t' (h2 t' ht')).2.2.2.2.1

/-! Window computations of the parser on explicit list shapes. -/

theorem take3_c3 (a b c : Char) (l : List Char) : (a :: b :: c :: l).take 3 = [a, b, c] := rfl

theorem drop3_c3 (a b c : Char) (l : List Char) : (a :: b :: c :: l).drop 3 = l := rfl

theorem take3_c2 (a b : Char) (l : List Char) :
    (a :: b :: l).take 3 = a :: b :: l.take 1 := rfl

theorem take2_c2 (a b : Char) (l : List Char) : (a :: b :: l).take 2 = [a, b] := rfl

theorem drop2_c2 (a b : Char) (l : List Char) : (a :: b :: l).drop 2 = l := rfl

theorem take1_c (a : Char) (l : List Char) : (a :: l).take 1 = [a] := rfl

theorem drop1_c (a : Char) (l : List Char) : (a :: l).drop 1 = l := rfl

theorem findVal_none_headVowel (tbl : List (List Char × List Char))
    (H : ∀ p ∈ tbl, 2 ≤ p.1.length → ∀ c ∈ p.1.take 1, c ∉ vowelsL)
    (v : Char) (hv : v ∈ vowelsL) (r : List Char) (hr : r ≠ []) :
    findVal tbl (v :: r) = none := by
  apply findVal_eq_none
  intro p hp heq
  have hlen : 2 ≤ p.1.length := by
    rw [heq]
    cases r with
    | nil => exact absurd rfl hr
    | cons c r' => simp [List.length_cons]
  exact H p hp hlen v (by rw [heq]; simp) hv

theorem findVal_none_sndVowel (tbl : List (List Char × List Char))
    (H : ∀ p ∈ tbl, p.1.length = 3 → ∀ b ∈ (p.1.drop 1).take 1, b ∉ vowelsL)
    (a v c' : Char) (hv : v ∈ vowelsL) :
    findVal tbl [a, v, c'] = none := by
  apply findVal_eq_none
  intro p hp heq
  exact H p hp (by rw [heq]; rfl) v (by rw [heq]; simp) hv

theorem findVal_none_afterN (tbl : List (List Char × List Char))
    (H : ∀ p ∈ tbl, p.1.take 1 = ['n'] →
      ∀ b ∈ (p.1.drop 1).take 1, b = 'y' ∨ b ∈ vowelsL)
    (c' : Char) (h1 : c' ∉ vowelsL) (h2 : c' ≠ 'y') (r : List Char) :
    findVal tbl ('n' :: c' :: r) = none := by
  apply findVal_eq_none
  intro p hp heq
  rcases H p hp (by rw [heq]; rfl) c' (by rw [heq]; simp) with h | h
  · exact h2 h
  · exact h1 h

/-- The parser consumes exactly one safe token's romanization per iteration:
the window lookups match the token's own tables and fail on every window
that reaches into the following token. -/
theorem parseGoF_step (fuel : Nat) (t : Tok) (ht : romaTokOK t = true)
    (rest : List Char)
    (hrest : rest = [] ∨ ∃ c, c ∈ romaHeads ∧ ∃ r', rest = c :: r')
    (hn : t.2 = ['n'] → rest = [] ∨ ∃ c, c ∈ afterN ∧ ∃ r', rest = c :: r') :
    parseGoF (fuel + 1) (t.2 ++ rest) = (parseGoF fuel rest).map (t.1 ++ ·) := by
  rcases t with ⟨k, r⟩
  match r with
  | [] => exact absurd ht (by simp [romaTokOK])
  | [a, b, c] =>
    obtain ⟨hax, hor⟩ := of_decide_eq_true ht
    show parseGoF (fuel + 1) (a :: b :: c :: rest) = _
    rcases hor with hdg | ⟨hdg, hmono⟩
    · simp only [parseGoF, if_neg hax, take3_c3, drop3_c3, hdg]
    · simp only [parseGoF, if_neg hax, take3_c3, drop3_c3, hdg, hmono]
  | [a, b] =>
    obtain ⟨hax, hbv, hdg2, hmono2⟩ := of_decide_eq_true ht
    rcases hrest with rfl | ⟨c', hc', r', rfl⟩
    · show parseGoF (fuel + 1) ([a, b] ++ []) = (parseGoF fuel []).map (k ++ ·)
      rw [List.append_nil]
      have ht3 : ([a, b] : List Char).take 3 = [a, b] := rfl
      have hd3 : ([a, b] : List Char).drop 3 = [] := rfl
      simp only [parseGoF, if_neg hax, ht3, hd3, hdg2, hmono2]
    · show parseGoF (fuel + 1) (a :: b :: c' :: r') = _
      have hdg3 : findVal digraphR [a, b, c'] = none :=
        findVal_none_sndVowel digraphR digraphR_snd_not_vowel a b c' hbv
      have hmono3 : findVal monoR [a, b, c'] = none :=
        findVal_none_sndVowel monoR monoR_snd_not_vowel a b c' hbv
      simp only [parseGoF, if_neg hax, take3_c3, take2_c2, drop2_c2, hdg3, hmono3,
        hmono2]
  | [a] =>
    by_cases han : a = 'n'
    · subst han
      have hk : k = ['ん'] := by
        have := ht
        simp only [romaTokOK, if_pos rfl] at this
        exact of_decide_eq_true this
      subst hk
      rcases hn rfl with rfl | ⟨c', hc', r', rfl⟩
      · show parseGoF (fuel + 1) ['n'] = (parseGoF fuel []).map (['ん'] ++ ·)
        have hnx : ('n' : Char) ≠ 'x' := by decide
        have ht3 : (['n'] : List Char).take 3 = ['n'] := rfl
        have ht2 : (['n'] : List Char).take 2 = ['n'] := rfl
        have ht1 : (['n'] : List Char).take 1 = ['n'] := rfl
        simp only [parseGoF, if_neg hnx, ht3, ht2, ht1, lone_n_unmapped.1,
          lone_n_unmapped.2]
        split
        · rfl
        · next hcond => exact absurd (by simp [nGate]) hcond
      · obtain ⟨hcv, hcy⟩ := afterN_facts c' hc'
        show parseGoF (fuel + 1) ('n' :: c' :: r') = _
        have hnx : ('n' : Char) ≠ 'x' := by decide
        have hdg3 : findVal digraphR ('n' :: c' :: r'.take 1) = none :=
          findVal_none_afterN digraphR digraphR_after_n c' hcv hcy _
        have hmono3 : findVal monoR ('n' :: c' :: r'.take 1) = none :=
          findVal_none_afterN monoR monoR_after_n c' hcv hcy _
        have hmono2 : findVal monoR ['n', c'] = none :=
          findVal_none_afterN monoR monoR_after_n c' hcv hcy []
        simp only [parseGoF, if_neg hnx, take3_c2, take2_c2, take1_c, hdg3, hmono3,
          hmono2, lone_n_unmapped.2]
        split
        · rfl
        · next hcond => exact absurd (by simp [nGate, hcv, hcy]) hcond
    · obtain ⟨hav, hdg1, hmono1⟩ := of_decide_eq_true
        (by simpa only [romaTokOK, if_neg han] using ht)
      have hax : a ≠ 'x' := by
        intro h; subst h; exact absurd hav (by decide)
      rcases hrest with rfl | ⟨c', hc', r', rfl⟩
      · show parseGoF (fuel + 1) ([a] ++ []) = (parseGoF fuel []).map (k ++ ·)
        rw [List.append_nil]
        have ht3 : ([a] : List Char).take 3 = [a] := rfl
        have hd3 : ([a] : List Char).drop 3 = [] := rfl
        simp only [parseGoF, if_neg hax, ht3, hd3, hdg1, hmono1]
      · show parseGoF (fuel + 1) (a :: c' :: r') = _
        have hdg3 : findVal digraphR (a :: c' :: r'.take 1) = none :=
          findVal_none_headVowel digraphR
            (fun p hp _ => digraphR_head_not_vowel p hp) a hav _ (by simp)
        have hmono3 : findVal monoR (a :: c' :: r'.take 1) = none :=
          findVal_none_headVowel monoR monoR_head_not_vowel a hav _ (by simp)
        have hmono2 : findVal monoR [a, c'] = none :=
          findVal_none_headVowel monoR monoR_head_not_vowel a hav [c'] (by simp)
        simp only [parseGoF, if_neg hax, take3_c2, take2_c2, take1_c, drop1_c,
          hdg3, hmono3, hmono2, hmono1]
  | _ :: _ :: _ :: _ :: _ => exact absurd ht (by simp [romaTokOK])

/-- The nasal side condition on a token sequence: a ん token is never
immediately followed by a vowel-initial or y-initial romanization. -/
def nGood : List Tok → Bool
  | [] => true
  | [_] => true
  | t :: t' :: ts =>
    (if t.1 = ['ん'] then
       (match t'.2 with
        | c :: _ => decide (c ∈ afterN)
        | [] => false)
     else true) && nGood (t' :: ts)

/-- A round-trip-safe syllable sequence: every token from the safe table,
with the nasal side condition. -/
def goodSeq (ts : List Tok) : Prop :=
  (∀ t ∈ ts, t ∈ safeToks) ∧ nGood ts = true

theorem parseGoF_nil (fuel : Nat) : parseGoF fuel [] = some [] := by
  cases fuel <;> rfl

theorem parseGoF_join :
    ∀ (ts : List Tok) (fuel : Nat),
      (∀ t ∈ ts, t ∈ safeToks) → nGood ts = true →
      (joinL (ts.map Prod.snd)).length ≤ fuel →
      parseGoF fuel (joinL (ts.map Prod.snd)) = some (joinL (ts.map Prod.fst)) := by
  intro ts
  induction ts with
  | nil => intro fuel _ _ _; exact parseGoF_nil fuel
  | cons t ts ih =>
    intro fuel hall hngood hfuel
    have hts : ∀ u ∈ ts, u ∈ safeToks := fun u hu => hall u (by simp [hu])
    have ht : t ∈ safeToks := hall t (by simp)
    have hsh := safeToks_shape t ht
    have hlen1 : 1 ≤ t.2.length := by
      cases h2 : t.2 with
      | nil => exact absurd h2 hsh.2.1
      | cons a l => simp [List.length_cons]
    have hjoin : joinL ((t :: ts).map Prod.snd) = t.2 ++ joinL (ts.map Prod.snd) := rfl
    rw [hjoin] at hfuel ⊢
    have hlen : t.2.length + (joinL (ts.map Prod.snd)).length ≤ fuel := by
      simpa [List.length_append] using hfuel
    obtain ⟨f, rfl⟩ : ∃ f, fuel = f + 1 := by
      cases fuel with
      | zero => omega
      | succ f => exact ⟨f, rfl⟩
    have hrest : joinL (ts.map Prod.snd) = [] ∨
        ∃ c, c ∈ romaHeads ∧ ∃ r', joinL (ts.map Prod.snd) = c :: r' := by
      cases ts with
      | nil => left; rfl
      | cons t' ts2 =>
        right
        have hsh' := safeToks_shape t' (hts t' (by simp))
        rcases hk : t'.2 with _ | ⟨c, k'⟩
        · exact absurd hk hsh'.2.1
        · refine ⟨c, hsh'.2.2.2.1 c (by simp [hk]), k' ++ joinL (ts2.map Prod.snd), ?_⟩
          show t'.2 ++ joinL (ts2.map Prod.snd) = _
          rw [hk]; rfl
    have hn : t.2 = ['n'] → joinL (ts.map Prod.snd) = [] ∨
        ∃ c, c ∈ afterN ∧ ∃ r', joinL (ts.map Prod.snd) = c :: r' := by
      intro h2n
      have h1n : t.1 = ['ん'] := hsh.2.2.2.2.2.2.2 h2n
      cases ts with
      | nil => left; rfl
      | cons t' ts2 =>
        right
        have hsh' := safeToks_shape t' (hts t' (by simp))
        have hngood' := hngood
        rw [show nGood (t :: t' :: ts2) =
            ((if t.1 = ['ん'] then
               (match t'.2 with
                | c :: _ => decide (c ∈ afterN)
                | [] => false)
             else true) && nGood (t' :: ts2)) from rfl,
          if_pos h1n, Bool.and_eq_true] at hngood'
        rcases hk : t'.2 with _ | ⟨c, k'⟩
        · exact absurd hk hsh'.2.1
        · refine ⟨c, ?_, k' ++ joinL (ts2.map Prod.snd), ?_⟩
          · have := hngood'.1
            rw [hk] at this
            exact of_decide_eq_true this
          · show t'.2 ++ joinL (ts2.map Prod.snd) = _
            rw [hk]; rfl
    rw [parseGoF_step f t (safeToks_roma_ok t ht) _ hrest hn]
    have hngood2 : nGood ts = true := by
      cases ts with
      | nil => rfl
      | cons t' ts2 =>
        have := hngood
        rw [show nGood (t :: t' :: ts2) = (_ && nGood (t' :: ts2)) from rfl,
          Bool.and_eq_true] at this
        exact this.2
    rw [ih f hts hngood2 (by omega)]
    rfl

theorem dropWhile_eq_self_of_all (p : Char → Bool) (l : List Char)
    (h : ∀ c ∈ l, ¬ p c) : l.dropWhile p = l := by
  apply dropWhile_eq_self_of_head
  intro c hc
  cases l with
  | nil => simp at hc
  | cons a t =>
    have hac : a = c := by simpa using hc
    exact hac ▸ h a (by simp)

theorem stripL_eq_self (l : List Char) (h : ∀ c ∈ l, ¬ c.isWhitespace) :
    stripL l = l := by
  unfold stripL
  rw [dropWhile_eq_self_of_all _ l h,
    dropWhile_eq_self_of_all _ l.reverse (fun c hc => h c (List.mem_reverse.mp hc)),
    List.reverse_reverse]

theorem replaceAllGo_no_x :
    ∀ (fuel : Nat) (l : List Char), 'x' ∉ l → ∀ pat rep : List Char, 'x' ∈ pat →
      replaceAllGo pat rep fuel l = l := by
  intro fuel
  induction fuel with
  | zero => intro l _ _ _ _; cases l <;> rfl
  | succ f ih =>
    intro l hx pat rep hpx
    cases l with
    | nil => rfl
    | cons c rest =>
      have hnp : ¬ (pat ≠ [] ∧ pat.isPrefixOf (c :: rest)) := by
        rintro ⟨-, hpre⟩
        exact hx ((List.isPrefixOf_iff_prefix.mp hpre).sublist.subset hpx)
      show replaceAllGo pat rep (f + 1) (c :: rest) = c :: rest
      rw [replaceAllGo, if_neg hnp,
        ih rest (fun hr => hx (by simp [hr])) pat rep hpx]

theorem foldl_replace_no_x :
    ∀ (L : List (List Char × List Char)) (l : List Char), 'x' ∉ l →
      (∀ p ∈ L, 'x' ∈ p.1) →
      List.foldl (fun acc p => replaceAll p.1 p.2 acc) l L = l := by
  intro L
  induction L with
  | nil => intro l _ _; rfl
  | cons p ps ih =>
    intro l hx h
    show List.foldl _ (replaceAll p.1 p.2 l) ps = l
    rw [show replaceAll p.1 p.2 l = l from
      replaceAllGo_no_x l.length l hx p.1 p.2 (h p (by simp))]
    exact ih l hx fun q hq => h q (by simp [hq])

theorem mergeSplitX_no_x (l : List Char) (hx : 'x' ∉ l) : mergeSplitX l = l :=
  foldl_replace_no_x xReps l hx (by decide)

/-- romaji_to_kana parses the concatenated romanization of a nonempty safe
sequence back to exactly the concatenated kana. -/
theorem romaji_to_kana_join (ts : List Tok) (h1 : ts ≠ []) (h2 : goodSeq ts) :
    romaji_to_kana ⟨joinL (ts.map Prod.snd)⟩ =
      some (⟨joinL (ts.map Prod.fst)⟩,
            ⟨(joinL (ts.map Prod.fst)).map hiraToKataChar⟩) := by
  obtain ⟨t, ts', rfl⟩ : ∃ t ts', ts = t :: ts' := by
    cases ts with
    | nil => exact absurd rfl h1
    | cons t ts' => exact ⟨t, ts', rfl⟩
  have hsh := safeToks_shape t (h2.1 t (by simp))
  have hRne : joinL ((t :: ts').map Prod.snd) ≠ [] := joinL_ne_nil t.2 hsh.2.1 _
  have hSne : (⟨joinL ((t :: ts').map Prod.snd)⟩ : String) ≠ "" := by
    intro h
    exact hRne (by simpa using congrArg String.data h)
  have hmem : ∀ c ∈ joinL ((t :: ts').map Prod.snd),
      Char.toLower c = c ∧ ¬ c.isWhitespace ∧ c ≠ 'x' := by
    intro c hc
    obtain ⟨u, hu, hcu⟩ := mem_joinL _ hc
    obtain ⟨t', ht', rfl⟩ := List.mem_map.mp hu
    exact (safeToks_shape t' (h2.1 t' ht')).2.2.2.2.2.2.1 c hcu
  have hstrip : stripL (joinL ((t :: ts').map Prod.snd))
      = joinL ((t :: ts').map Prod.snd) :=
    stripL_eq_self _ fun c hc => (hmem c hc).2.1
  have hlower : (joinL ((t :: ts').map Prod.snd)).map Char.toLower
      = joinL ((t :: ts').map Prod.snd) :=
    map_eq_self _ fun c hc => (hmem c hc).1
  have hmx : mergeSplitX (joinL ((t :: ts').map Prod.snd))
      = joinL ((t :: ts').map Prod.snd) :=
    mergeSplitX_no_x _ fun hx => (hmem 'x' hx).2.2 rfl
  rw [romaji_to_kana, if_neg hSne]
  have hdata : (⟨joinL ((t :: ts').map Prod.snd)⟩ : String).data
      = joinL ((t :: ts').map Prod.snd) := rfl
  rw [hdata, hstrip, hlower, hmx]
  have hparse : parseGo (joinL ((t :: ts').map Prod.snd))
      = some (joinL ((t :: ts').map Prod.fst)) := by
    show parseGoF (joinL ((t :: ts').map Prod.snd)).length
        (joinL ((t :: ts').map Prod.snd)) = _
    exact parseGoF_join (t :: ts') _ h2.1 h2.2 (le_refl _)
  rw [hparse]

/-- Counterexample to C3 as stated: を is a mapped hiragana syllable with no
nasal involved, yet kana_to_romaji sends it to "o", which romaji_to_kana
parses back as お, not を. -/
theorem C3_roundtrip_counterexample :
    findVal monoK 'を' = some "o".data ∧
    kana_to_romaji "を" = "o" ∧
    (romaji_to_kana (kana_to_romaji "を")).map Prod.fst = some "お" ∧
    ("お" : String) ≠ "を" :=
  ⟨rfl, rfl, by decide, by decide⟩

/-- C3 amended: for every nonempty string assembled from round-trip-safe
syllables (the palatalised digraphs except じゃ/じゅ/じょ and the ゔ-row, and
the monographs except を, ぢ, づ, the small kana, ゔ, っ and ー), with ん
never immediately followed by a vowel-initial or y-initial syllable, the
hiragana component of romaji_to_kana (kana_to_romaji s) equals s. -/
theorem C3_roundtrip_amended (ts : List Tok) (h1 : ts ≠ []) (h2 : goodSeq ts) :
    (romaji_to_kana (kana_to_romaji ⟨joinL (ts.map Prod.fst)⟩)).map Prod.fst =
      some ⟨joinL (ts.map Prod.fst)⟩ := by
  rw [kana_to_romaji_join ts h1 h2.1, romaji_to_kana_join ts h1 h2]
  rfl

/-- Witness for C3 amended: the safe sequence ね,こ round-trips: the claim
instantiated at a concrete two-token queue. -/
theorem C3_roundtrip_witness :
    (romaji_to_kana (kana_to_romaji
        ⟨joinL (([("ね".data, "ne".data), ("こ".data, "ko".data)] : List Tok).map
          Prod.fst)⟩)).map Prod.fst =
      some ⟨joinL (([("ね".data, "ne".data), ("こ".data, "ko".data)] : List Tok).map
        Prod.fst)⟩ :=
  C3_roundtrip_amended [("ね".data, "ne".data), ("こ".data, "ko".data)]
    (by decide) ⟨by decide, by decide⟩

end Vocab
